import Mathlib

/-!
Shallow embedding of the pack-opening backend (src/server.js) and the
flattening script (scripts/flatten.js is not needed by the claims).

Conventions used throughout the embedding:
* JS strings are `String`; a JS `null`/missing string field is modelled as
  `""` when the code only ever tests it for truthiness, and as `Option _`
  when absence and emptiness must be distinguished.
* JS numbers are `ℚ` where `Math.random()` arithmetic is involved
  (weights, rolls), `ℤ` for coin balances, and `ℕ` for counters.
* `Math.random()` is an oracle `ℕ → ℚ`; each call of the source consumes
  one position `k` of the oracle, and positions are threaded explicitly so
  that the number of consumed randoms matches the source exactly.
  `Math.random()` contractually returns a value in `[0, 1)`; `clamp01`
  restricts an arbitrary oracle value to that contract domain.
* JS `Map` objects and per-owner stores are total functions from keys,
  updated pointwise.
-/

namespace PackBackend

/-- One row of a drop table: `{rarity, weight, pityEvery?}` (server.js uses
`r.rarity`, `r.weight`, `r.pityEvery`). -/
structure Row where
  rarity : String
  weight : ℚ
  pityEvery : Option ℕ
deriving DecidableEq, Repr

/-- A drop table: `{id, rows}`. -/
structure Table where
  id : String
  rows : List Row
deriving DecidableEq, Repr

/-- A catalog item from `db.items` (flattened catalog). -/
structure Item where
  id : String
  name : String
  rarity : String
  artUrl : String
  kind : String
deriving DecidableEq, Repr

/-- A pack from `db.packs`: `{id, name, price: {currency, amount}, tableId}`;
the currency is always COIN, so only the amount is kept. -/
structure Pack where
  id : String
  name : String
  priceAmount : ℤ
  tableId : String
deriving DecidableEq, Repr

/-- The static `drop-tables.json` database loaded at process start. -/
structure Db where
  packs : List Pack
  dropTables : List Table
  items : List Item
deriving DecidableEq, Repr

/-- `Math.random()` contract: values lie in `[0, 1)`.  An oracle value
outside that range is clamped to `0`; a real `Math.random()` stream is
untouched by this. -/
def clamp01 (q : ℚ) : ℚ :=
  if 0 ≤ q ∧ q < 1 then q else 0

/-- The random-number stream feeding every `Math.random()` call. -/
def Oracle : Type := ℕ → ℚ

instance exceptDecidableEq {ε α : Type} [DecidableEq ε] [DecidableEq α] :
    DecidableEq (Except ε α) := fun x y =>
  match x, y with
  | .error a, .error b =>
    if h : a = b then isTrue (congrArg Except.error h)
    else isFalse fun he => h (Except.error.inj he)
  | .ok a, .ok b =>
    if h : a = b then isTrue (congrArg Except.ok h)
    else isFalse fun he => h (Except.ok.inj he)
  | .error _, .ok _ => isFalse fun he => Except.noConfusion he
  | .ok _, .error _ => isFalse fun he => Except.noConfusion he

/-- JS truthiness of the `pityEvery` field: present and non-zero. -/
def pityTruthy : Option ℕ → Bool
  | some n => n ≠ 0
  | none => false

/-- The weighted walk of `pickRarity` (server.js lines 166-176):
accumulate weights, return the first row whose cumulative weight reaches
the roll; on exhaustion fall back to `table.rows[0].rarity` with the pity
counter untouched; with an empty row list that fallback is a thrown
`TypeError`, modelled as `.error ()`. -/
def walkRows (roll : ℚ) (pity : ℕ) (fallback : Option Row) :
    ℚ → List Row → Except Unit (String × ℕ)
  | _, [] =>
    match fallback with
    | some r0 => .ok (r0.rarity, pity)
    | none => .error ()
  | acc, r :: rs =>
    let acc' := acc + r.weight
    if roll ≤ acc' then
      .ok (r.rarity, if r.rarity == "legendary" then 0 else pity + 1)
    else
      walkRows roll pity fallback acc' rs

/-- `pickRarity(table)` (server.js lines 160-178), with the process-wide
`state.pity.legendarySince` counter passed in and returned explicitly.
Returns `(rarity, newPityCounter, nextOraclePosition)`; the pity-forced
branch returns before `Math.random()` is called, so it leaves the oracle
position unchanged. -/
def pickRarity (t : Table) (pity : ℕ) (o : Oracle) (k : ℕ) :
    Except Unit (String × ℕ × ℕ) :=
  let pityRow := t.rows.find? fun r => r.rarity == "legendary" && pityTruthy r.pityEvery
  let forced : Bool :=
    match pityRow with
    | some pr => decide (pr.pityEvery.getD 0 ≤ pity + 1)
    | none => false
  if forced then
    .ok ("legendary", 0, k)
  else
    let total := t.rows.foldl (fun s r => s + r.weight) 0
    let roll := clamp01 (o k) * total
    match walkRows roll pity t.rows.head? 0 t.rows with
    | .ok (ra, p') => .ok (ra, p', k + 1)
    | .error e => .error e

/-! ## Catalog hierarchy (canon JSON files) and computeProgress -/

/-- A stem / fragment leaf of the catalog; only `id` and `name` are read by
`computeProgress`. -/
structure StemC where
  id : String
  name : String
deriving DecidableEq, Repr

/-- A song inside an EP: `{id, name, stems}`. -/
structure SongC where
  id : String
  name : String
  stems : List StemC
deriving DecidableEq, Repr

/-- A cover reference: only its `id` is read. -/
structure CoverC where
  id : String
deriving DecidableEq, Repr

/-- A reward-character reference `{id, name}`. -/
structure CharC where
  id : String
  name : String
deriving DecidableEq, Repr

/-- An EP of `eps.json`: `{id, name, songs, cover?, character?}`. -/
structure EpC where
  id : String
  name : String
  songs : List SongC
  cover : Option CoverC
  character : Option CharC
deriving DecidableEq, Repr

/-- A single of `eps.json`.  server.js reads `(s?.stems) || (s?.song?.stems)
|| []`; a present-but-empty array is truthy in JS, so presence of the two
stem fields must be tracked with `Option`. -/
structure SingleC where
  id : String
  name : String
  stems : Option (List StemC)
  songStems : Option (List StemC)
  cover : Option CoverC
  character : Option CharC
deriving DecidableEq, Repr

/-- A character of `fragments.json`: `{id, name, fragments}`. -/
structure FragCharC where
  id : String
  name : String
  fragments : List StemC
deriving DecidableEq, Repr

/-- The `canon` object: `canon.eps.eps`, `canon.eps.singles`,
`canon.fragments.characters` are the parts `computeProgress` reads
(`unreleased` and golden `characters` are not read by it). -/
structure Canon where
  eps : List EpC
  singles : List SingleC
  fragChars : List FragCharC
deriving DecidableEq, Repr

/-- One entry of the `songs` array built by `computeProgress`. -/
structure SongRep where
  id : String
  name : String
  ownedStems : ℕ
  totalStems : ℕ
  complete : Bool
  epId : String
deriving DecidableEq, Repr

/-- One entry of the `eps` array built by `computeProgress`. -/
structure EpRep where
  id : String
  name : String
  songsComplete : ℕ
  totalSongs : ℕ
  coverOwned : Bool
  complete : Bool
deriving DecidableEq, Repr

/-- One entry of the `singles` array built by `computeProgress`. -/
structure SingleRep where
  id : String
  name : String
  ownedStems : ℕ
  totalStems : ℕ
  coverOwned : Bool
  complete : Bool
deriving DecidableEq, Repr

/-- One entry of the `fragments` array built by `computeProgress`. -/
structure FragRep where
  characterId : String
  name : String
  owned : ℕ
  total : ℕ
  complete : Bool
deriving DecidableEq, Repr

/-- One entry of the `characters` array built by `computeProgress`. -/
structure CharRep where
  id : String
  name : String
  unlocked : Bool
  source : String
deriving DecidableEq, Repr

/-- The report returned by `computeProgress`. -/
structure Progress where
  songs : List SongRep
  eps : List EpRep
  singles : List SingleRep
  fragments : List FragRep
  characters : List CharRep
deriving DecidableEq, Repr

/-- JS `a || b` on the name strings (`""` stands for a falsy value). -/
def orElseStr (a b : String) : String :=
  if a = "" then b else a

/-- The per-song record of `computeProgress` (lines 234-247). -/
def songRepOf (owned : List String) (epId : String) (song : SongC) : SongRep :=
  let ownedStems := (song.stems.filter fun st => owned.contains st.id).length
  let totalStems := song.stems.length
  let complete := decide (0 < totalStems) && decide (ownedStems = totalStems)
  ⟨song.id, song.name, ownedStems, totalStems, complete, epId⟩

/-- `!!(x?.cover?.id && owned.has(x.cover.id))` (lines 250 and 277). -/
def coverOwnedOf (owned : List String) : Option CoverC → Bool
  | some c => c.id ≠ "" && owned.contains c.id
  | none => false

/-- The per-EP record of `computeProgress` (lines 230-259). -/
def epRepOf (owned : List String) (ep : EpC) : EpRep :=
  let songsComplete := (ep.songs.map (songRepOf owned ep.id)).countP (·.complete)
  let coverOwned := coverOwnedOf owned ep.cover
  let complete :=
    decide (0 < ep.songs.length) && decide (songsComplete = ep.songs.length) && coverOwned
  ⟨ep.id, ep.name, songsComplete, ep.songs.length, coverOwned, complete⟩

/-- Stem array of a single: `(s?.stems) || (s?.song?.stems) || []` (line 274).
A present empty array is truthy in JS and therefore taken. -/
def singleStems (s : SingleC) : List StemC :=
  match s.stems with
  | some l => l
  | none => s.songStems.getD []

/-- The per-single record of `computeProgress` (lines 273-287). -/
def singleRepOf (owned : List String) (s : SingleC) : SingleRep :=
  let stemArray := singleStems s
  let ownedStems := (stemArray.filter fun st => owned.contains st.id).length
  let totalStems := stemArray.length
  let coverOwned := coverOwnedOf owned s.cover
  let complete := decide (0 < totalStems) && decide (ownedStems = totalStems) && coverOwned
  ⟨s.id, s.name, ownedStems, totalStems, coverOwned, complete⟩

/-- The per-fragment-character record of `computeProgress` (lines 300-312). -/
def fragRepOf (owned : List String) (ch : FragCharC) : FragRep :=
  let ownedCount := (ch.fragments.filter fun f => owned.contains f.id).length
  let total := ch.fragments.length
  let complete := decide (0 < total) && decide (ownedCount = total)
  ⟨ch.id, ch.name, ownedCount, total, complete⟩

/-- `computeProgress(inv, canon)` (server.js lines 220-325), with the
owner's inventory already reduced to its list of item ids (the function's
only use of `inv` is `new Set(inv.items.map(it => it.itemId))`). -/
def computeProgress (owned : List String) (c : Canon) : Progress :=
  let songs := c.eps.flatMap fun ep => ep.songs.map (songRepOf owned ep.id)
  let eps := c.eps.map (epRepOf owned)
  let singles := c.singles.map (singleRepOf owned)
  let fragments := c.fragChars.map (fragRepOf owned)
  let epChars := c.eps.filterMap fun ep =>
    if (epRepOf owned ep).complete then
      match ep.character with
      | some ch =>
        if ch.id ≠ "" then
          some (⟨ch.id, orElseStr ch.name ch.id, true, ep.id⟩ : CharRep)
        else none
      | none => none
    else none
  let singleChars := c.singles.filterMap fun s =>
    if (singleRepOf owned s).complete then
      match s.character with
      | some ch =>
        if ch.id ≠ "" then
          some (⟨ch.id, orElseStr ch.name ch.id, true, s.id⟩ : CharRep)
        else none
      | none => none
    else none
  let fragChars := c.fragChars.filterMap fun ch =>
    if (fragRepOf owned ch).complete && ch.id ≠ "" then
      some (⟨ch.id, orElseStr ch.name ch.id, true, "fragments"⟩ : CharRep)
    else none
  ⟨songs, eps, singles, fragments, epChars ++ singleChars ++ fragChars⟩

/-! ## materializeUnlocks (server.js lines 327-380)

The `unlocked_characters` table restricted to one owner is modelled as the
list of its `char_id` values (the only column the function reads back). -/

/-- The per-EP-report body of the `materializeUnlocks` EP loop (lines
343-350): for a complete EP report, re-find the EP definition by id and
take its reward character when the owner does not have it yet. -/
def epCand (haveIds : List String) (c : Canon) (e : EpRep) : Option (String × String) :=
  if e.complete then
    match c.eps.find? fun ep => ep.id == e.id with
    | some epDef =>
      match epDef.character with
      | some ch => if !(haveIds.contains ch.id) then some (ch.id, "EP:" ++ e.id) else none
      | none => none
    | none => none
  else none

/-- EP-completion unlock candidates of `materializeUnlocks` (lines 343-350). -/
def epNewly (haveIds owned : List String) (c : Canon) : List (String × String) :=
  (computeProgress owned c).eps.filterMap (epCand haveIds c)

/-- The per-single-report body of the singles loop (lines 352-359). -/
def singleCand (haveIds : List String) (c : Canon) (sr : SingleRep) :
    Option (String × String) :=
  if sr.complete then
    match c.singles.find? fun x => x.id == sr.id with
    | some sDef =>
      match sDef.character with
      | some ch => if !(haveIds.contains ch.id) then some (ch.id, "SINGLE:" ++ sr.id) else none
      | none => none
    | none => none
  else none

/-- Single-completion unlock candidates (lines 352-359). -/
def singleNewly (haveIds owned : List String) (c : Canon) : List (String × String) :=
  (computeProgress owned c).singles.filterMap (singleCand haveIds c)

/-- The per-fragment-report body of the fragments loop (lines 362-366). -/
def fragCand (haveIds : List String) (f : FragRep) : Option (String × String) :=
  if f.complete && !(haveIds.contains f.characterId) then
    some (f.characterId, "FRAGMENTS:" ++ f.characterId)
  else none

/-- Fragment-completion unlock candidates (lines 362-366). -/
def fragNewly (haveIds owned : List String) (c : Canon) : List (String × String) :=
  (computeProgress owned c).fragments.filterMap (fragCand haveIds)

/-- The `newly` array of `materializeUnlocks`: `(char_id, source)` pairs. -/
def newlyUnlocks (haveIds owned : List String) (c : Canon) : List (String × String) :=
  epNewly haveIds owned c ++ singleNewly haveIds owned c ++ fragNewly haveIds owned c

/-- Upsert with `onConflict: 'owner_id,char_id'`: insert each key that is
not present, update (and hence never duplicate) a key that is. -/
def upsertKeys : List String → List String → List String
  | t, [] => t
  | t, k :: ks => upsertKeys (if t.contains k then t else t ++ [k]) ks

/-- `materializeUnlocks(userId, inv, canon)` restricted to one owner:
given the owner's current unlocked `char_id` set and inventory item ids,
return the new unlocked set and the reported `inserted` count.  When
`newly` is empty the function returns `{inserted: 0}` before touching the
table (line 368). -/
def materializeUnlocks (haveIds owned : List String) (c : Canon) : List String × ℕ :=
  let newly := newlyUnlocks haveIds owned c
  if newly.isEmpty then (haveIds, 0)
  else (upsertKeys haveIds (newly.map (·.1)), newly.length)

/-! ## Server state, the open-pack handler and the commit handler -/

/-- One entry of an opening's `results` array (and of an anonymous owner's
inventory file, which stores exactly these objects). -/
structure ResultEntry where
  itemId : String
  name : String
  rarity : String
  artUrl : String
  kind : String
  isDupe : Bool
deriving DecidableEq, Repr

/-- One row of the `inventory_items` table restricted to one owner. -/
structure DbRow where
  itemId : String
  name : String
  rarity : String
  artUrl : String
  qty : ℕ
deriving DecidableEq, Repr

/-- The response of a successful `/api/packs/open` call. -/
structure OpenResponse where
  openingId : String
  packId : String
  packName : String
  priceAmount : ℤ
  results : List ResultEntry
  balanceCOIN : ℤ
  dupeCreditCOIN : ℤ
  pityAfter : ℕ
deriving DecidableEq, Repr

/-- One value of the `state.idempo` map: `{requestHash, response}`. -/
structure IdemEntry where
  requestHash : String
  response : OpenResponse
deriving DecidableEq, Repr

/-- A staged pending opening (`state.pendingOpens` value / `pending_opens`
row): `{packId, idempotencyKey, openedAt, results}`. -/
structure Pending where
  packId : String
  idempotencyKey : String
  openedAt : ℕ
  results : List ResultEntry
deriving DecidableEq, Repr

/-- The mutable state the handlers touch: the process-wide `state` object
plus the per-owner stores (anonymous JSON files and the relational
tables), each restricted to the column set the handlers read. -/
structure Srv where
  pity : ℕ
  idempo : String → Option IdemEntry
  pendingOpens : String → Option Pending
  anonBal : String → ℤ
  anonItems : String → List ResultEntry
  dbBalance : String → ℤ
  dbItems : String → List DbRow
  dbPending : String → Option Pending
  dbTokens : String → ℕ
  dbShards : String → ℕ
  dbUnlocks : String → List String

/-- Pointwise update of a per-key store. -/
def upd {α : Type} (m : String → α) (k : String) (v : α) : String → α :=
  fun x => if x = k then v else m x

/-- Outcome of a handler: the JSON payload or `res.status(n).json({error})`. -/
inductive ApiResult (α : Type) where
  | ok (v : α)
  | err (status : ℕ) (msg : String)
deriving DecidableEq, Repr

/-- `hashRequest(body)` = `JSON.stringify({packId})` (server.js line 158,
applied at line 649 to the object `{ packId }`). -/
def hashRequest (packId : String) : String :=
  "\x7b\"packId\":\"" ++ packId ++ "\"\x7d"

/-- `pool[Math.floor(Math.random() * pool.length)]` for one already-drawn
random `r`; `none` exactly when the pool is empty. -/
def jsChoice {α : Type} (l : List α) (r : ℚ) : Option α :=
  l.get? (clamp01 r * l.length).floor.toNat

/-- `pickAnyByRarity(rarity, excludeIds)` (lines 694-698); consumes one
oracle position iff the pool is non-empty. -/
def pickAnyByRarity (items : List Item) (rarity : String) (exclude : List String)
    (o : Oracle) (k : ℕ) : Option Item × ℕ :=
  let pool := items.filter fun i => i.rarity == rarity && !(exclude.contains i.id)
  if pool.isEmpty then (none, k) else (jsChoice pool (o k), k + 1)

/-- `pickNewItemPreferRarity(rarity, excludeIds)` (lines 700-708), with the
captured `ownedIds` passed in. -/
def pickNewItemPreferRarity (items : List Item) (owned : List String) (rarity : String)
    (exclude : List String) (o : Oracle) (k : ℕ) : Option Item × ℕ :=
  let poolR := items.filter fun i =>
    i.rarity == rarity && !(owned.contains i.id) && !(exclude.contains i.id)
  if !poolR.isEmpty then (jsChoice poolR (o k), k + 1)
  else
    let poolAll := items.filter fun i => !(owned.contains i.id) && !(exclude.contains i.id)
    if poolAll.isEmpty then (none, k) else (jsChoice poolAll (o k), k + 1)

/-- The state threaded through the five-draw loop of the open handler. -/
structure DrawState where
  pity : ℕ
  k : ℕ
  guarantee : Bool
  seen : List String
  results : List ResultEntry
deriving Repr

/-- `pickRarity(table)` where `table` may be `undefined` (the lookup at
line 677 is unchecked); calling it on `undefined` throws. -/
def pickRarityT (tableOpt : Option Table) (pity : ℕ) (o : Oracle) (k : ℕ) :
    Except Unit (String × ℕ × ℕ) :=
  match tableOpt with
  | none => .error ()
  | some t => pickRarity t pity o k

/-- One iteration of the draw loop (server.js lines 719-742). -/
def drawStep (db : Db) (tableOpt : Option Table) (owned : List String) (o : Oracle)
    (st : DrawState) : Except Unit DrawState :=
  match pickRarityT tableOpt st.pity o st.k with
  | .error e => .error e
  | .ok (rarity, pity2, k2) =>
    let afterG : Option Item × ℕ × Bool :=
      if st.guarantee then
        let (it, k') := pickNewItemPreferRarity db.items owned rarity st.seen o k2
        (it, k', false)
      else (none, k2, st.guarantee)
    let item1 := afterG.1
    let k3 := afterG.2.1
    let g3 := afterG.2.2
    let afterAny : Option Item × ℕ :=
      match item1 with
      | some it => (some it, k3)
      | none =>
        let (it, k') := pickAnyByRarity db.items rarity st.seen o k3
        match it with
        | some x => (some x, k')
        | none => (db.items.find? fun i => i.rarity == rarity, k')
    match afterAny.1 with
    | none => .ok { st with pity := pity2, k := afterAny.2, guarantee := g3 }
    | some item =>
      .ok { pity := pity2, k := afterAny.2, guarantee := g3,
            seen := st.seen ++ [item.id],
            results := st.results ++
              [⟨item.id, item.name, item.rarity, item.artUrl, item.kind,
                owned.contains item.id⟩] }

/-- The `for (let i = 0; i < pullsN; i++)` loop, by remaining iterations. -/
def drawLoop (db : Db) (tableOpt : Option Table) (owned : List String) (o : Oracle) :
    ℕ → DrawState → Except Unit DrawState
  | 0, st => .ok st
  | n + 1, st =>
    match drawStep db tableOpt owned o st with
    | .error e => .error e
    | .ok st' => drawLoop db tableOpt owned o n st'

/-- `dbDebitBalance` (lines 399-402): a no-op for non-positive amounts,
otherwise `inc_balance` with the negated amount. -/
def dbDebit (bal amount : ℤ) : ℤ :=
  if amount ≤ 0 then bal else bal - amount

/-- Tail of the open handler after funds and debit (lines 677-773): table
lookup, five draws, response assembly, pending stage, idempotency store.
A throw inside the loop is caught by the route's `catch` as a 500; such a
throw can only happen on the very first draw (empty or missing table), so
no partial pity/seen updates survive it. -/
def openFinish (db : Db) (s : Srv) (uuid : Bool) (owner packId key : String)
    (o : Oracle) (nid : String) (now : ℕ) (pack : Pack) (ownedIds : List String)
    (guarantee : Bool) (respBal : ℤ) : ApiResult OpenResponse × Srv :=
  let tableOpt := db.dropTables.find? fun t => t.id == pack.tableId
  match drawLoop db tableOpt ownedIds o 5 ⟨s.pity, 0, guarantee, [], []⟩ with
  | .error _ => (.err 500 "server error", s)
  | .ok st =>
    let response : OpenResponse :=
      ⟨"op_" ++ nid, pack.id, pack.name, pack.priceAmount, st.results, respBal, 0, st.pity⟩
    let s₁ := { s with pity := st.pity }
    let s₂ :=
      if uuid then
        { s₁ with dbPending := upd s₁.dbPending owner (some ⟨packId, key, now, st.results⟩) }
      else
        match s₁.pendingOpens owner with
        | some _ => s₁
        | none =>
          { s₁ with pendingOpens := upd s₁.pendingOpens owner (some ⟨packId, key, now, st.results⟩) }
    let s₃ := { s₂ with idempo := upd s₂.idempo key (some ⟨hashRequest packId, response⟩) }
    (.ok response, s₃)

/-- `POST /api/packs/open` (server.js lines 641-777).  `uuid` is
`isUUID(req.playerId)`, `owner` is `req.playerId`, `nid` the `nanoid(6)`
value and `now` the `Date.now()` value of this call.  The anonymous file
store is modelled as already-materialized per-owner balance/item maps, so
`loadInventory`'s create-on-first-read is invisible.  The
`consume_guarantee_token` RPC has no source in the repository and is
modelled from the spec: guarantee tokens are "consumed one-at-a-time"
(§4.5b), so it decrements a positive per-owner token count and reports
whether one was consumed. -/
def openPack (db : Db) (s : Srv) (uuid : Bool) (owner packId idemKey : String)
    (o : Oracle) (nid : String) (now : ℕ) : ApiResult OpenResponse × Srv :=
  if packId = "" ∨ idemKey = "" then
    (.err 400 "packId and idempotencyKey are required", s)
  else
    let key := idemKey
    let requestHash := hashRequest packId
    match s.idempo key with
    | some entry =>
      if entry.requestHash ≠ requestHash then
        (.err 409 "idempotency key reused with different request", s)
      else
        (.ok entry.response, s)
    | none =>
      match db.packs.find? fun p => p.id == packId with
      | none => (.err 400 "Unknown packId", s)
      | some pack =>
        if uuid then
          let bal := s.dbBalance owner
          if bal < pack.priceAmount then (.err 402 "Insufficient funds", s)
          else
            let s₁ := { s with dbBalance := upd s.dbBalance owner (dbDebit bal pack.priceAmount) }
            let used := decide (0 < s.dbTokens owner)
            let s₂ :=
              if used then { s₁ with dbTokens := upd s₁.dbTokens owner (s.dbTokens owner - 1) }
              else s₁
            let ownedIds := (s.dbItems owner).map (·.itemId)
            openFinish db s₂ true owner packId key o nid now pack ownedIds used
              (bal - pack.priceAmount)
        else
          let bal := s.anonBal owner
          if bal < pack.priceAmount then (.err 402 "Insufficient funds", s)
          else
            let s₁ := { s with anonBal := upd s.anonBal owner (bal - pack.priceAmount) }
            let ownedIds := (s.anonItems owner).map (·.itemId)
            -- line 750 subtracts the price from the already-debited local
            -- inv object, so the reported anon balance is bal - 2*amount
            openFinish db s₁ false owner packId key o nid now pack ownedIds false
              (bal - pack.priceAmount - pack.priceAmount)

/-- `new Map(pending.results.map(it => [it.itemId, it])).get(id)`: a JS Map
keeps the last entry written for a key. -/
def lookupLast (l : List ResultEntry) (id : String) : Option ResultEntry :=
  (l.filter fun it => it.itemId == id).getLast?

/-- Modelled from the spec: the SQL of the `add_items_and_award_shards`
RPC is not in the repository.  Per §4.5(b) and the `qty` handling of
`dbAddInventoryItems`, each accepted item inserts a `qty = 1` row or
increments the existing row's quantity by one, and each accepted duplicate
accrues one shard; the returned number is the shard count gained. -/
def addItemsQty : List DbRow → List ResultEntry → List DbRow × ℕ
  | rows, [] => (rows, 0)
  | rows, it :: rest =>
    if rows.any fun r => r.itemId == it.itemId then
      let rows' := rows.map fun r =>
        if r.itemId == it.itemId then { r with qty := r.qty + 1 } else r
      let p := addItemsQty rows' rest
      (p.1, p.2 + 1)
    else
      addItemsQty (rows ++ [⟨it.itemId, it.name, it.rarity, it.artUrl, 1⟩]) rest

/-- The inventory payload returned by the commit handler. -/
inductive InvView where
  | anonV (balance : ℤ) (items : List ResultEntry)
  | dbV (balance : ℤ) (items : List DbRow)
deriving DecidableEq, Repr

/-- `POST /api/collection/add` (server.js lines 780-843).  The durable
branch redeclares its `inv` binding (lines 824-829, a leftover slip); the
model follows the evident add → clear → materialize-unlocks → return-fresh
sequence.  The anonymous branch appends the selected pending entries to
the owner's file and deletes the in-memory pending. -/
def collectionAdd (c : Canon) (s : Srv) (uuid : Bool) (owner : String)
    (itemIds : List String) : ApiResult InvView × Srv :=
  if itemIds = [] then (.err 400 "No itemIds provided.", s)
  else
    let pending := if uuid then s.dbPending owner else s.pendingOpens owner
    match pending with
    | none => (.err 400 "No pending items to collect.", s)
    | some p =>
      if p.results = [] then (.err 400 "No pending items to collect.", s)
      else
        let allowed := p.results.map fun it => it.itemId
        let toAddIds := itemIds.filter fun id => allowed.contains id
        if toAddIds = [] then (.err 400 "No matching pending items.", s)
        else
          let itemsToAdd := toAddIds.filterMap (lookupLast p.results)
          if uuid then
            let added := addItemsQty (s.dbItems owner) itemsToAdd
            let s₁ := { s with dbItems := upd s.dbItems owner added.1,
                               dbShards := upd s.dbShards owner (s.dbShards owner + added.2),
                               dbPending := upd s.dbPending owner none }
            let unl := materializeUnlocks (s₁.dbUnlocks owner) (added.1.map (·.itemId)) c
            let s₂ := { s₁ with dbUnlocks := upd s₁.dbUnlocks owner unl.1 }
            (.ok (.dbV (s₂.dbBalance owner) (s₂.dbItems owner)), s₂)
          else
            let items' := s.anonItems owner ++ itemsToAdd
            let s₁ := { s with anonItems := upd s.anonItems owner items',
                               pendingOpens := upd s.pendingOpens owner none }
            (.ok (.anonV (s₁.anonBal owner) items'), s₁)

/-- The pending opening visible to a commit for this owner. -/
def pendingOf (s : Srv) (uuid : Bool) (owner : String) : Option Pending :=
  if uuid then s.dbPending owner else s.pendingOpens owner

/-- The owner's coin balance in the store the handlers use for them. -/
def balOf (s : Srv) (uuid : Bool) (owner : String) : ℤ :=
  if uuid then s.dbBalance owner else s.anonBal owner

/-- The owner's inventory item ids as snapshotted when the open handler
loads the inventory (before any draw). -/
def snapshotIds (s : Srv) (uuid : Bool) (owner : String) : List String :=
  if uuid then (s.dbItems owner).map (·.itemId) else (s.anonItems owner).map (·.itemId)

/-- Spec wording (§4.6): a Song is complete iff it has at least one stem
and all of its stems are owned. -/
def songCompleteSpec (owned : List String) (song : SongC) : Bool :=
  !song.stems.isEmpty && song.stems.all fun st => owned.contains st.id

/-- Spec wording amended by the code: a Release is complete iff it has at
least one song, every song is complete, and its cover is owned. -/
def releaseCompleteSpecAmended (owned : List String) (ep : EpC) : Bool :=
  !ep.songs.isEmpty && (ep.songs.all (songCompleteSpec owned)) && coverOwnedOf owned ep.cover

/-- Number of inventory-file entries bearing an item id (an anonymous
owner's quantity of that item). -/
def countIds (l : List ResultEntry) (id : String) : ℕ :=
  (l.filter fun e => e.itemId == id).length

/-- Total stored quantity of an item id over the owner's inventory rows. -/
def dbQty (rows : List DbRow) (id : String) : ℕ :=
  ((rows.filter fun r => r.itemId == id).map (·.qty)).sum

/-! ## Shared concrete fixtures for witnesses and counterexamples -/

/-- A fresh server state: no cache entries, no pendings, every owner with
1000 COIN and an empty inventory. -/
def baseSrv : Srv :=
  { pity := 0, idempo := fun _ => none, pendingOpens := fun _ => none,
    anonBal := fun _ => 1000, anonItems := fun _ => [],
    dbBalance := fun _ => 1000, dbItems := fun _ => [], dbPending := fun _ => none,
    dbTokens := fun _ => 0, dbShards := fun _ => 0, dbUnlocks := fun _ => [] }

/-- A one-pack, one-table, one-item catalog. -/
def dbW : Db :=
  ⟨[⟨"p1", "Pack", 100, "t1"⟩], [⟨"t1", [⟨"common", 1, none⟩]⟩],
   [⟨"i1", "I", "common", "", "stem"⟩]⟩

/-- The opening `dbW`/`baseSrv` produce for an anonymous owner with the
all-zero oracle: item `i1` five times, none a dupe. -/
def respW : OpenResponse :=
  ⟨"op_X", "p1", "Pack", 100, List.replicate 5 ⟨"i1", "I", "common", "", "stem", false⟩,
   800, 0, 5⟩

/-- A pending opening staged by an earlier call. -/
def oldPending : Pending := ⟨"oldpack", "oldkey", 1, [⟨"x", "X", "common", "", "stem", false⟩]⟩

/-- A state whose durable (`pending_opens` table) slot for every owner is
already occupied by `oldPending`. -/
def srvC4 : Srv := { baseSrv with dbPending := fun _ => some oldPending }

/-! # Lemmas and claim theorems -/

/-! ## Lemmas about the drop-table resolver -/

lemma clamp01_nonneg (q : ℚ) : 0 ≤ clamp01 q := by
  unfold clamp01; split
  · next h => exact h.1
  · exact le_refl 0

lemma clamp01_le_one (q : ℚ) : clamp01 q ≤ 1 := by
  unfold clamp01; split
  · next h => exact le_of_lt h.2
  · exact zero_le_one

lemma foldl_weight (rows : List Row) (a : ℚ) :
    rows.foldl (fun s r => s + r.weight) a = a + (rows.map (·.weight)).sum := by
  induction rows generalizing a with
  | nil => simp
  | cons r rs ih => simp [ih, add_assoc]

/-- With a positive-weight table and a roll below the total weight, the
weighted walk returns some row of the table, resetting the counter on a
legendary hit and incrementing it otherwise. -/
lemma walkRows_mem (roll : ℚ) (pity : ℕ) (fb : Option Row) :
    ∀ (rows : List Row) (acc : ℚ), rows ≠ [] →
      roll ≤ acc + (rows.map (·.weight)).sum →
      ∃ r ∈ rows, walkRows roll pity fb acc rows =
        .ok (r.rarity, if r.rarity == "legendary" then 0 else pity + 1) := by
  intro rows
  induction rows with
  | nil => simp
  | cons r rs ih =>
    intro acc _ hle
    by_cases h : roll ≤ acc + r.weight
    · exact ⟨r, List.mem_cons_self r rs, by simp [walkRows, h]⟩
    · cases rs with
      | nil =>
        exfalso
        simp only [List.map_cons, List.map_nil, List.sum_cons, List.sum_nil, add_zero] at hle
        exact h hle
      | cons r2 rs2 =>
        obtain ⟨r', hmem, heq⟩ := ih (acc + r.weight) (by simp)
          (by simpa [add_assoc] using hle)
        exact ⟨r', List.mem_cons_of_mem r hmem, by simp only [walkRows, if_neg h]; exact heq⟩

/-! ## Claim C3: pity check -/

unseal Rat.mul Rat.add in
/-- C3 counterexample: the claim quantifies over any rarity `R` carrying
`pityEvery`, but `pickRarity` only inspects rows whose rarity is the
literal string `"legendary"`.  A one-row table `{rarity: "epic",
weight: 1, pityEvery: 1}` with counter `0` satisfies the claim's premise
(`0 + 1 ≥ 1`), so the claim predicts a forced `("epic", counter 0)` with
no random consumed; the code instead runs the weighted roll, returns
`"epic"` via the roll, increments the counter to `1` and consumes one
random. -/
theorem c3_counterexample_nonlegendary_pity :
    pickRarity ⟨"t", [⟨"epic", 1, some 1⟩]⟩ 0 (fun _ => 0) 0 ≠ .ok ("epic", 0, 0) ∧
    pickRarity ⟨"t", [⟨"epic", 1, some 1⟩]⟩ 0 (fun _ => 0) 0 = .ok ("epic", 1, 1) := by
  constructor
  · decide
  · decide

unseal Rat.mul Rat.add in
/-- C3 (amended to the code's behavior: the pity rarity is the literal
`"legendary"`): (1) if the first legendary row with a truthy `pityEvery`
exists and `counter + 1 ≥ pityEvery`, the draw is forced to `"legendary"`
with the counter reset to `0` and no random number consumed; (2) otherwise,
for a non-empty positive-weight table, the weighted roll decides: some row
of the table is returned, the counter resets to `0` on a legendary hit and
increments by `1` otherwise, and one random is consumed; (3) the check runs
once per draw: in a concrete 5-draw opening over a table with
`pityEvery = 3` on legendary whose rolls always land on `"common"`, the
third draw is a forced legendary mid-sequence. -/
theorem c3_pity_per_draw_amended :
    (∀ (t : Table) (pity : ℕ) (o : Oracle) (k : ℕ) (pr : Row),
        t.rows.find? (fun r => r.rarity == "legendary" && pityTruthy r.pityEvery) = some pr →
        pr.pityEvery.getD 0 ≤ pity + 1 →
        pickRarity t pity o k = .ok ("legendary", 0, k))
    ∧ (∀ (t : Table) (pity : ℕ) (o : Oracle) (k : ℕ),
        (t.rows.find? (fun r => r.rarity == "legendary" && pityTruthy r.pityEvery) = none ∨
          ∃ pr, t.rows.find? (fun r => r.rarity == "legendary" && pityTruthy r.pityEvery) = some pr ∧
            pity + 1 < pr.pityEvery.getD 0) →
        t.rows ≠ [] → (∀ r ∈ t.rows, 0 < r.weight) →
        ∃ r ∈ t.rows,
          pickRarity t pity o k =
            .ok (r.rarity, if r.rarity == "legendary" then 0 else pity + 1, k + 1))
    ∧ ((drawLoop
          ⟨[⟨"p1", "Pack", 100, "t1"⟩],
           [⟨"t1", [⟨"common", 1, none⟩, ⟨"legendary", 1, some 3⟩]⟩],
           [⟨"c1", "C", "common", "", "stem"⟩, ⟨"l1", "L", "legendary", "", "char"⟩]⟩
          (some ⟨"t1", [⟨"common", 1, none⟩, ⟨"legendary", 1, some 3⟩]⟩)
          [] (fun _ => 0) 5 ⟨0, 0, false, [], []⟩).map
            (fun st => (st.results.map (·.rarity), st.pity)) =
        .ok (["common", "common", "legendary", "common", "common"], 2)) := by
  refine ⟨?_, ?_, ?_⟩
  · intro t pity o k pr hfind hp
    simp only [pickRarity, hfind]
    simp [hp]
  · intro t pity o k hforce hne hpos
    have hfalse :
        (match t.rows.find? (fun r => r.rarity == "legendary" && pityTruthy r.pityEvery) with
          | some pr => decide (pr.pityEvery.getD 0 ≤ pity + 1)
          | none => false) = false := by
      rcases hforce with h | ⟨pr, hpr, hlt⟩
      · simp [h]
      · simp [hpr, hlt, Nat.not_le.mpr hlt]
    have hsum_pos : 0 < (t.rows.map (·.weight)).sum := by
      apply List.sum_pos
      · intro x hx
        obtain ⟨r, hr, rfl⟩ := List.mem_map.mp hx
        exact hpos r hr
      · simpa using hne
    have hroll : clamp01 (o k) * (t.rows.foldl (fun s r => s + r.weight) 0) ≤
        0 + (t.rows.map (·.weight)).sum := by
      rw [foldl_weight, zero_add]
      calc clamp01 (o k) * (t.rows.map (·.weight)).sum
          ≤ 1 * (t.rows.map (·.weight)).sum :=
            mul_le_mul_of_nonneg_right (clamp01_le_one _) (le_of_lt hsum_pos)
        _ = (t.rows.map (·.weight)).sum := one_mul _
    obtain ⟨r, hmem, heq⟩ := walkRows_mem
      (clamp01 (o k) * (t.rows.foldl (fun s r => s + r.weight) 0)) pity
      t.rows.head? t.rows 0 hne hroll
    refine ⟨r, hmem, ?_⟩
    simp only [pickRarity, hfalse]
    simp only [Bool.false_eq_true, if_false, heq]
  · decide

unseal Rat.mul Rat.add in
/-- Witness for `c3_pity_per_draw_amended`: a one-row legendary table with
`pityEvery = 1` and counter `0` forces legendary with the counter reset and
no random consumed. -/
theorem c3_pity_per_draw_amended_witness :
    pickRarity ⟨"t", [⟨"legendary", 1, some 1⟩]⟩ 0 (fun _ => 0) 0 =
      .ok ("legendary", 0, 0) :=
  c3_pity_per_draw_amended.1 ⟨"t", [⟨"legendary", 1, some 1⟩]⟩ 0 (fun _ => 0) 0
    ⟨"legendary", 1, some 1⟩ (by decide) (by decide)

/-! ## Claim C5: rarity with zero catalog items -/

unseal Rat.mul Rat.add in
/-- C5: with a catalog holding no item of the resolved rarity (`"mythic"`),
the open handler does not reject the draw: every slot hits
`if (!item) continue`, so the call succeeds with an empty `results` array
(0 of the fixed 5 slots) while the owner was still debited (reported anon
balance 800 reflects the double subtraction of line 750 over the debited
900). -/
theorem c5_missing_rarity_items_silently_skipped :
    (openPack ⟨[⟨"p1", "Pack", 100, "t1"⟩], [⟨"t1", [⟨"mythic", 1, none⟩]⟩], []⟩
        { pity := 0, idempo := fun _ => none, pendingOpens := fun _ => none,
          anonBal := fun _ => 1000, anonItems := fun _ => [],
          dbBalance := fun _ => 1000, dbItems := fun _ => [], dbPending := fun _ => none,
          dbTokens := fun _ => 0, dbShards := fun _ => 0, dbUnlocks := fun _ => [] }
        false "alice" "p1" "k1" (fun _ => 0) "X" 7).1 =
      .ok ⟨"op_X", "p1", "Pack", 100, [], 800, 0, 5⟩ ∧
    (openPack ⟨[⟨"p1", "Pack", 100, "t1"⟩], [⟨"t1", [⟨"mythic", 1, none⟩]⟩], []⟩
        { pity := 0, idempo := fun _ => none, pendingOpens := fun _ => none,
          anonBal := fun _ => 1000, anonItems := fun _ => [],
          dbBalance := fun _ => 1000, dbItems := fun _ => [], dbPending := fun _ => none,
          dbTokens := fun _ => 0, dbShards := fun _ => 0, dbUnlocks := fun _ => [] }
        false "alice" "p1" "k1" (fun _ => 0) "X" 7).2.anonBal "alice" = 900 := by
  constructor
  · decide
  · decide

/-! ## Claim C6: non-positive total weight -/

unseal Rat.mul Rat.add in
/-- C6: with a drop table of total weight `0` (single row
`{rarity: "common", weight: 0}`), `pickRarity` does not fail: the roll is
`Math.random() * 0 = 0`, the walk accepts the first row (`0 ≤ 0`), and the
function silently returns `"common"` while bumping the pity counter — no
configuration error is raised. -/
theorem c6_zero_total_weight_silently_defaults :
    pickRarity ⟨"t0", [⟨"common", 0, none⟩]⟩ 0 (fun _ => mkRat 1 2) 0 =
      .ok ("common", 1, 1) := by
  decide

/-! ## Lemmas about the open handler -/

lemma drawStep_isDupe {db : Db} {tableOpt : Option Table} {owned : List String}
    {o : Oracle} {st st' : DrawState}
    (h : drawStep db tableOpt owned o st = .ok st')
    (hP : ∀ r ∈ st.results, r.isDupe = owned.contains r.itemId) :
    ∀ r ∈ st'.results, r.isDupe = owned.contains r.itemId := by
  unfold drawStep at h
  cases hpick : pickRarityT tableOpt st.pity o st.k with
  | error e => rw [hpick] at h; exact absurd h (by simp)
  | ok v =>
    obtain ⟨rarity, pity2, k2⟩ := v
    rw [hpick] at h
    dsimp only at h
    split at h
    · injection h with h'
      subst h'
      simpa using hP
    · next item heq =>
      injection h with h'
      subst h'
      intro r hr
      simp only [List.mem_append, List.mem_singleton] at hr
      rcases hr with hr | hr
      · exact hP r hr
      · subst hr; rfl

lemma drawLoop_isDupe {db : Db} {tableOpt : Option Table} {owned : List String}
    {o : Oracle} :
    ∀ {n : ℕ} {st st' : DrawState},
      drawLoop db tableOpt owned o n st = .ok st' →
      (∀ r ∈ st.results, r.isDupe = owned.contains r.itemId) →
      ∀ r ∈ st'.results, r.isDupe = owned.contains r.itemId := by
  intro n
  induction n with
  | zero =>
    intro st st' h hP
    injection h with h'
    subst h'
    exact hP
  | succ m ih =>
    intro st st' h hP
    unfold drawLoop at h
    cases hs : drawStep db tableOpt owned o st with
    | error e => rw [hs] at h; exact absurd h (by simp)
    | ok st₁ =>
      rw [hs] at h
      exact ih h (drawStep_isDupe hs hP)

/-- Everything the claims need about a successful `openFinish`: which
fields of the state it writes, how it stages the pending opening, what it
stores in the idempotency cache, and the dupe marking of the results. -/
lemma openFinish_ok_fields {db : Db} {s : Srv} {uuid : Bool}
    {owner packId key : String} {o : Oracle} {nid : String} {now : ℕ} {pack : Pack}
    {ownedIds : List String} {g : Bool} {respBal : ℤ} {resp : OpenResponse} {s' : Srv}
    (h : openFinish db s uuid owner packId key o nid now pack ownedIds g respBal =
      (.ok resp, s')) :
    s'.dbBalance = s.dbBalance ∧ s'.anonBal = s.anonBal ∧
    s'.dbItems = s.dbItems ∧ s'.anonItems = s.anonItems ∧
    s'.dbTokens = s.dbTokens ∧ s'.dbShards = s.dbShards ∧ s'.dbUnlocks = s.dbUnlocks ∧
    s'.idempo = upd s.idempo key (some ⟨hashRequest packId, resp⟩) ∧
    (uuid = true →
      s'.dbPending = upd s.dbPending owner (some ⟨packId, key, now, resp.results⟩) ∧
      s'.pendingOpens = s.pendingOpens) ∧
    (uuid = false →
      s'.dbPending = s.dbPending ∧
      ((s.pendingOpens owner).isSome → s'.pendingOpens = s.pendingOpens) ∧
      (s.pendingOpens owner = none →
        s'.pendingOpens = upd s.pendingOpens owner (some ⟨packId, key, now, resp.results⟩))) ∧
    (∀ r ∈ resp.results, r.isDupe = ownedIds.contains r.itemId) := by
  unfold openFinish at h
  dsimp only at h
  cases hd : drawLoop db (db.dropTables.find? fun t => t.id == pack.tableId) ownedIds o 5
      ⟨s.pity, 0, g, [], []⟩ with
  | error e => rw [hd] at h; exact absurd h (by simp)
  | ok st =>
    rw [hd] at h
    dsimp only at h
    have hdupe : ∀ r ∈ st.results, r.isDupe = ownedIds.contains r.itemId :=
      drawLoop_isDupe hd (by simp)
    cases uuid with
    | true =>
      rw [if_pos rfl] at h
      injection h with h1 h2
      injection h1 with h1'
      subst h1' h2
      refine ⟨rfl, rfl, rfl, rfl, rfl, rfl, rfl, rfl, ?_, ?_, hdupe⟩
      · intro _; exact ⟨rfl, rfl⟩
      · intro hf; exact absurd hf (by decide)
    | false =>
      rw [if_neg (by decide)] at h
      cases hpo : s.pendingOpens owner with
      | some p =>
        rw [hpo] at h
        injection h with h1 h2
        injection h1 with h1'
        subst h1' h2
        refine ⟨rfl, rfl, rfl, rfl, rfl, rfl, rfl, rfl, ?_, ?_, hdupe⟩
        · intro hf; exact absurd hf (by decide)
        · intro _
          refine ⟨rfl, fun _ => rfl, ?_⟩
          intro hn
          simp at hn
      | none =>
        rw [hpo] at h
        injection h with h1 h2
        injection h1 with h1'
        subst h1' h2
        refine ⟨rfl, rfl, rfl, rfl, rfl, rfl, rfl, rfl, ?_, ?_, hdupe⟩
        · intro hf; exact absurd hf (by decide)
        · intro _
          refine ⟨rfl, ?_, fun _ => rfl⟩
          intro hsome
          simp at hsome

/-- Cached path of the open handler: a seen key with matching fingerprint
returns the stored response and leaves the state untouched. -/
lemma openPack_cached_hit {db : Db} {s : Srv} {uuid : Bool}
    {owner packId idemKey : String} {o : Oracle} {nid : String} {now : ℕ}
    {entry : IdemEntry}
    (hp : packId ≠ "") (hk : idemKey ≠ "")
    (he : s.idempo idemKey = some entry)
    (hh : entry.requestHash = hashRequest packId) :
    openPack db s uuid owner packId idemKey o nid now = (.ok entry.response, s) := by
  unfold openPack
  rw [if_neg (not_or.mpr ⟨hp, hk⟩)]
  dsimp only
  rw [he]
  dsimp only
  rw [if_neg (not_ne_iff.mpr hh)]

/-- Conflict path of the open handler: a seen key with a different
fingerprint yields the 409 error and leaves the state untouched. -/
lemma openPack_cached_conflict {db : Db} {s : Srv} {uuid : Bool}
    {owner packId idemKey : String} {o : Oracle} {nid : String} {now : ℕ}
    {entry : IdemEntry}
    (hp : packId ≠ "") (hk : idemKey ≠ "")
    (he : s.idempo idemKey = some entry)
    (hh : entry.requestHash ≠ hashRequest packId) :
    openPack db s uuid owner packId idemKey o nid now =
      (.err 409 "idempotency key reused with different request", s) := by
  unfold openPack
  rw [if_neg (not_or.mpr ⟨hp, hk⟩)]
  dsimp only
  rw [he]
  dsimp only
  rw [if_pos hh]

/-- Everything the claims need about a successful, non-cached open call:
the pack was found and affordable, what was debited, what was staged, what
was stored under the idempotency key, and the dupe marking. -/
lemma openPack_ok_master {db : Db} {s : Srv} {uuid : Bool}
    {owner packId idemKey : String} {o : Oracle} {nid : String} {now : ℕ}
    {resp : OpenResponse} {s' : Srv}
    (h : openPack db s uuid owner packId idemKey o nid now = (.ok resp, s'))
    (hfresh : s.idempo idemKey = none) :
    packId ≠ "" ∧ idemKey ≠ "" ∧
    ∃ pack, db.packs.find? (fun p => p.id == packId) = some pack ∧
      ¬(balOf s uuid owner < pack.priceAmount) ∧
      s'.idempo = upd s.idempo idemKey (some ⟨hashRequest packId, resp⟩) ∧
      (uuid = true →
        s'.dbBalance = upd s.dbBalance owner (dbDebit (s.dbBalance owner) pack.priceAmount) ∧
        s'.anonBal = s.anonBal ∧
        s'.dbPending = upd s.dbPending owner (some ⟨packId, idemKey, now, resp.results⟩) ∧
        s'.pendingOpens = s.pendingOpens) ∧
      (uuid = false →
        s'.anonBal = upd s.anonBal owner (s.anonBal owner - pack.priceAmount) ∧
        s'.dbBalance = s.dbBalance ∧
        s'.dbPending = s.dbPending ∧
        ((s.pendingOpens owner).isSome → s'.pendingOpens = s.pendingOpens) ∧
        (s.pendingOpens owner = none →
          s'.pendingOpens = upd s.pendingOpens owner (some ⟨packId, idemKey, now, resp.results⟩))) ∧
      (∀ r ∈ resp.results, r.isDupe = (snapshotIds s uuid owner).contains r.itemId) := by
  by_cases hv : packId = "" ∨ idemKey = ""
  · unfold openPack at h
    rw [if_pos hv] at h
    injection h with h1 _
    exact absurd h1 (by simp)
  · push_neg at hv
    obtain ⟨hp, hk⟩ := hv
    unfold openPack at h
    rw [if_neg (not_or.mpr ⟨hp, hk⟩)] at h
    dsimp only at h
    rw [hfresh] at h
    dsimp only at h
    cases hfind : db.packs.find? fun p => p.id == packId with
    | none =>
      rw [hfind] at h
      injection h with h1 _
      exact absurd h1 (by simp)
    | some pack =>
      rw [hfind] at h
      dsimp only at h
      refine ⟨hp, hk, pack, rfl, ?_⟩
      cases uuid with
      | true =>
        rw [if_pos rfl] at h
        by_cases hbal : s.dbBalance owner < pack.priceAmount
        · rw [if_pos hbal] at h
          injection h with h1 _
          exact absurd h1 (by simp)
        · rw [if_neg hbal] at h
          by_cases htok : 0 < s.dbTokens owner
          · rw [decide_eq_true htok] at h
            rw [if_pos rfl] at h
            have hf := openFinish_ok_fields h
            exact ⟨hbal, hf.2.2.2.2.2.2.2.1,
              fun _ => ⟨hf.1, hf.2.1, (hf.2.2.2.2.2.2.2.2.1 rfl).1,
                (hf.2.2.2.2.2.2.2.2.1 rfl).2⟩,
              fun hfalse => absurd hfalse (by decide), hf.2.2.2.2.2.2.2.2.2.2⟩
          · rw [decide_eq_false htok] at h
            rw [if_neg (by decide)] at h
            have hf := openFinish_ok_fields h
            exact ⟨hbal, hf.2.2.2.2.2.2.2.1,
              fun _ => ⟨hf.1, hf.2.1, (hf.2.2.2.2.2.2.2.2.1 rfl).1,
                (hf.2.2.2.2.2.2.2.2.1 rfl).2⟩,
              fun hfalse => absurd hfalse (by decide), hf.2.2.2.2.2.2.2.2.2.2⟩
      | false =>
        rw [if_neg (by decide)] at h
        by_cases hbal : s.anonBal owner < pack.priceAmount
        · rw [if_pos hbal] at h
          injection h with h1 _
          exact absurd h1 (by simp)
        · rw [if_neg hbal] at h
          have hf := openFinish_ok_fields h
          exact ⟨hbal, hf.2.2.2.2.2.2.2.1,
            fun htrue => absurd htrue (by decide),
            fun _ => ⟨hf.2.1, hf.1, (hf.2.2.2.2.2.2.2.2.2.1 rfl).1,
              (hf.2.2.2.2.2.2.2.2.2.1 rfl).2.1, (hf.2.2.2.2.2.2.2.2.2.1 rfl).2.2⟩,
            hf.2.2.2.2.2.2.2.2.2.2⟩

lemma upd_same {α : Type} (m : String → α) (k : String) (v : α) : upd m k v k = v := by
  simp [upd]

lemma dbDebit_nonneg {bal amount : ℤ} (h : 0 ≤ amount) : dbDebit bal amount = bal - amount := by
  unfold dbDebit
  split
  · next hle => omega
  · rfl

/-! ## Claim C1: idempotent replay and conflict of OpenPack -/

/-- C1: for an open call whose `idempotencyKey` is already cached:
(1) with a matching fingerprint (`hashRequest {packId}`) the stored
response is returned and the state is returned untouched — no
re-execution, no side effect, no debit; (2) with a differing fingerprint
the call fails with the 409 conflict and the state is returned untouched;
(3) debited exactly once in total: a successful fresh call debits the
owner's balance by exactly the pack price, and repeating the call with the
same key and packId (any oracle/nanoid/time) returns the identical
response and leaves the post-first-call state identical, so the two calls
debit once in total. -/
theorem c1_idempotent_open :
    (∀ (db : Db) (s : Srv) (uuid : Bool) (owner packId idemKey : String) (o : Oracle)
        (nid : String) (now : ℕ) (entry : IdemEntry),
        packId ≠ "" → idemKey ≠ "" → s.idempo idemKey = some entry →
        entry.requestHash = hashRequest packId →
        openPack db s uuid owner packId idemKey o nid now = (.ok entry.response, s)) ∧
    (∀ (db : Db) (s : Srv) (uuid : Bool) (owner packId idemKey : String) (o : Oracle)
        (nid : String) (now : ℕ) (entry : IdemEntry),
        packId ≠ "" → idemKey ≠ "" → s.idempo idemKey = some entry →
        entry.requestHash ≠ hashRequest packId →
        openPack db s uuid owner packId idemKey o nid now =
          (.err 409 "idempotency key reused with different request", s)) ∧
    (∀ (db : Db) (s : Srv) (uuid : Bool) (owner packId idemKey : String) (o o' : Oracle)
        (nid nid' : String) (now now' : ℕ) (pack : Pack) (resp : OpenResponse) (s₁ : Srv),
        s.idempo idemKey = none →
        db.packs.find? (fun p => p.id == packId) = some pack →
        0 ≤ pack.priceAmount →
        openPack db s uuid owner packId idemKey o nid now = (.ok resp, s₁) →
        balOf s₁ uuid owner = balOf s uuid owner - pack.priceAmount ∧
        openPack db s₁ uuid owner packId idemKey o' nid' now' = (.ok resp, s₁)) := by
  refine ⟨?_, ?_, ?_⟩
  · intro db s uuid owner packId idemKey o nid now entry hp hk he hh
    exact openPack_cached_hit hp hk he hh
  · intro db s uuid owner packId idemKey o nid now entry hp hk he hh
    exact openPack_cached_conflict hp hk he hh
  · intro db s uuid owner packId idemKey o o' nid nid' now now' pack resp s₁
      hfresh hfind hpos h1
    obtain ⟨hp, hk, pack', hfind', hbal, hidem, hT, hF, -⟩ := openPack_ok_master h1 hfresh
    rw [hfind] at hfind'
    injection hfind' with hpk
    subst hpk
    constructor
    · cases uuid with
      | true =>
        have hb := (hT rfl).1
        show s₁.dbBalance owner = s.dbBalance owner - pack.priceAmount
        rw [hb, upd_same, dbDebit_nonneg hpos]
      | false =>
        have hb := (hF rfl).1
        show s₁.anonBal owner = s.anonBal owner - pack.priceAmount
        rw [hb, upd_same]
    · have he : s₁.idempo idemKey = some ⟨hashRequest packId, resp⟩ := by
        rw [hidem, upd_same]
      exact openPack_cached_hit hp hk he rfl

unseal Rat.mul Rat.add in
/-- Witness for `c1_idempotent_open`: a concrete fresh anonymous call on
`dbW`/`baseSrv` debits 1000 → 900 once and replays identically. -/
theorem c1_idempotent_open_witness :
    balOf (openPack dbW baseSrv false "alice" "p1" "k1" (fun _ => 0) "X" 7).2 false "alice" =
      balOf baseSrv false "alice" - 100 ∧
    openPack dbW ((openPack dbW baseSrv false "alice" "p1" "k1" (fun _ => 0) "X" 7).2)
        false "alice" "p1" "k1" (fun _ => 1) "Y" 9 =
      (.ok respW, (openPack dbW baseSrv false "alice" "p1" "k1" (fun _ => 0) "X" 7).2) :=
  c1_idempotent_open.2.2 dbW baseSrv false "alice" "p1" "k1" (fun _ => 0) (fun _ => 1)
    "X" "Y" 7 9 ⟨"p1", "Pack", 100, "t1"⟩ respW
    ((openPack dbW baseSrv false "alice" "p1" "k1" (fun _ => 0) "X" 7).2)
    rfl rfl (by decide) rfl

/-! ## Claim C10: the cache is keyed only by the client key -/

/-- C10: the idempotency cache is one process-wide map keyed only by the
client-supplied key, and the stored fingerprint covers only the `packId`:
after any successful open call, a second call bearing the same key and
packId — from any owner and any storage mode — returns the first call's
cached response and leaves the state (in particular every balance)
completely unchanged. -/
theorem c10_cross_owner_cache_hit :
    ∀ (db : Db) (s : Srv) (uuid₁ uuid₂ : Bool) (owner₁ owner₂ packId idemKey : String)
      (o o' : Oracle) (nid nid' : String) (now now' : ℕ) (resp : OpenResponse) (s₁ : Srv),
      s.idempo idemKey = none →
      openPack db s uuid₁ owner₁ packId idemKey o nid now = (.ok resp, s₁) →
      openPack db s₁ uuid₂ owner₂ packId idemKey o' nid' now' = (.ok resp, s₁) := by
  intro db s uuid₁ uuid₂ owner₁ owner₂ packId idemKey o o' nid nid' now now' resp s₁
    hfresh h1
  obtain ⟨hp, hk, pack', hfind', hbal, hidem, -, -, -⟩ := openPack_ok_master h1 hfresh
  have he : s₁.idempo idemKey = some ⟨hashRequest packId, resp⟩ := by
    rw [hidem, upd_same]
  exact openPack_cached_hit hp hk he rfl

unseal Rat.mul Rat.add in
/-- Witness for `c10_cross_owner_cache_hit`: `"alice"` opens on `dbW`,
then `"bob"` reuses the same key and packId and receives Alice's cached
opening with no state change (so Bob is never debited). -/
theorem c10_cross_owner_cache_hit_witness :
    openPack dbW ((openPack dbW baseSrv false "alice" "p1" "k1" (fun _ => 0) "X" 7).2)
        false "bob" "p1" "k1" (fun _ => 0) "Y" 9 =
      (.ok respW, (openPack dbW baseSrv false "alice" "p1" "k1" (fun _ => 0) "X" 7).2) :=
  c10_cross_owner_cache_hit dbW baseSrv false false "alice" "bob" "p1" "k1"
    (fun _ => 0) (fun _ => 0) "X" "Y" 7 9 respW
    ((openPack dbW baseSrv false "alice" "p1" "k1" (fun _ => 0) "X" 7).2)
    rfl rfl

/-- In the anonymous storage mode, `openFinish` never replaces an existing
pending opening: when one is present the stage step is a no-op, on every
path (including a thrown draw loop). -/
lemma openFinish_pendingOpens_isSome {db : Db} {s : Srv}
    {owner packId key : String} {o : Oracle} {nid : String} {now : ℕ} {pack : Pack}
    {ownedIds : List String} {g : Bool} {respBal : ℤ}
    (hsome : (s.pendingOpens owner).isSome) :
    ((openFinish db s false owner packId key o nid now pack ownedIds g respBal).2).pendingOpens =
      s.pendingOpens := by
  unfold openFinish
  dsimp only
  cases hd : drawLoop db (db.dropTables.find? fun t => t.id == pack.tableId) ownedIds o 5
      ⟨s.pity, 0, g, [], []⟩ with
  | error e => rfl
  | ok st =>
    dsimp only
    rw [if_neg (by decide)]
    cases hpo : s.pendingOpens owner with
    | some p => rfl
    | none => rw [hpo] at hsome; simp at hsome

/-! ## Claim C4: staging over an existing pending opening -/

unseal Rat.mul Rat.add in
/-- C4 counterexample: for a UUID owner the handler stages via
`dbSetPendingOpen`, an upsert on `owner_id`, which *overwrites* the
existing pending opening: after a successful non-cached open, the stored
pending is the new opening, not the earlier `oldPending` — "first pending
wins" fails for durable owners. -/
theorem c4_counterexample_uuid_overwrites_pending :
    srvC4.dbPending "u1" = some oldPending ∧
    (openPack dbW srvC4 true "u1" "p1" "k1" (fun _ => 0) "X" 7).1 =
      .ok ⟨"op_X", "p1", "Pack", 100,
        List.replicate 5 ⟨"i1", "I", "common", "", "stem", false⟩, 900, 0, 5⟩ ∧
    (openPack dbW srvC4 true "u1" "p1" "k1" (fun _ => 0) "X" 7).2.dbPending "u1" =
      some ⟨"p1", "k1", 7, List.replicate 5 ⟨"i1", "I", "common", "", "stem", false⟩⟩ ∧
    (⟨"p1", "k1", 7, List.replicate 5 ⟨"i1", "I", "common", "", "stem", false⟩⟩ : Pending) ≠
      oldPending := by
  refine ⟨rfl, by decide, by decide, by decide⟩

/-- C4 (amended: restricted to anonymous owners, whose pendings live in the
in-memory `state.pendingOpens` map): when an anonymous owner already has a
live pending opening, any open call — cached, erroring or successful —
leaves that pending untouched; the earlier pending stays authoritative.
(For UUID owners the durable upsert overwrites instead, see the
counterexample.) -/
theorem c4_anon_first_pending_wins :
    ∀ (db : Db) (s : Srv) (owner packId idemKey : String) (o : Oracle)
      (nid : String) (now : ℕ) (p : Pending),
      s.pendingOpens owner = some p →
      ((openPack db s false owner packId idemKey o nid now).2).pendingOpens owner = some p := by
  intro db s owner packId idemKey o nid now p hp
  unfold openPack
  by_cases hv : packId = "" ∨ idemKey = ""
  · rw [if_pos hv]; exact hp
  · rw [if_neg hv]
    dsimp only
    cases hid : s.idempo idemKey with
    | some entry =>
      dsimp only
      by_cases hh : entry.requestHash ≠ hashRequest packId
      · rw [if_pos hh]; exact hp
      · rw [if_neg hh]; exact hp
    | none =>
      cases hfind : db.packs.find? fun pk => pk.id == packId with
      | none => exact hp
      | some pack =>
        dsimp only
        rw [if_neg (by decide)]
        by_cases hbal : s.anonBal owner < pack.priceAmount
        · rw [if_pos hbal]; exact hp
        · rw [if_neg hbal]
          rw [openFinish_pendingOpens_isSome (by rw [hp]; rfl)]
          exact hp

unseal Rat.mul Rat.add in
/-- Witness for `c4_anon_first_pending_wins`: an anonymous owner with a
staged `oldPending` opens again with a fresh key; the pending is still
`oldPending` afterwards. -/
theorem c4_anon_first_pending_wins_witness :
    ((openPack dbW { baseSrv with pendingOpens := fun _ => some oldPending }
        false "alice" "p1" "k1" (fun _ => 0) "X" 7).2).pendingOpens "alice" =
      some oldPending :=
  c4_anon_first_pending_wins dbW { baseSrv with pendingOpens := fun _ => some oldPending }
    "alice" "p1" "k1" (fun _ => 0) "X" 7 oldPending rfl

/-! ## Claim C7: dupe marking against the opening-start snapshot -/

/-- C7: every result slot of a fresh (non-cached) opening is marked
`isDupe = true` exactly when its item id occurs in the owner's inventory
as snapshotted when the handler loaded it, before any draw; the snapshot
is never updated mid-opening, so repeated pulls of one item inside an
opening all carry the same pre-opening answer. -/
theorem c7_isDupe_from_snapshot :
    ∀ (db : Db) (s : Srv) (uuid : Bool) (owner packId idemKey : String) (o : Oracle)
      (nid : String) (now : ℕ) (resp : OpenResponse),
      s.idempo idemKey = none →
      (openPack db s uuid owner packId idemKey o nid now).1 = .ok resp →
      ∀ r ∈ resp.results, r.isDupe = (snapshotIds s uuid owner).contains r.itemId := by
  intro db s uuid owner packId idemKey o nid now resp hfresh hok
  have hpair : openPack db s uuid owner packId idemKey o nid now =
      (.ok resp, (openPack db s uuid owner packId idemKey o nid now).2) := by
    rw [← hok]
  obtain ⟨-, -, pack', -, -, -, -, -, hdupe⟩ := openPack_ok_master hpair hfresh
  exact hdupe

unseal Rat.mul Rat.add in
/-- Witness for `c7_isDupe_from_snapshot`: an anonymous owner already
owning `i1` draws `i1` five times; each drawn slot is marked a dupe, and
the marking equals membership of `i1` in the pre-opening snapshot. -/
theorem c7_isDupe_from_snapshot_witness :
    (⟨"i1", "I", "common", "", "stem", true⟩ : ResultEntry).isDupe =
      (snapshotIds { baseSrv with anonItems := fun _ => [⟨"i1", "I", "common", "", "stem", false⟩] }
        false "alice").contains "i1" :=
  c7_isDupe_from_snapshot dbW
    { baseSrv with anonItems := fun _ => [⟨"i1", "I", "common", "", "stem", false⟩] }
    false "alice" "p1" "k1" (fun _ => 0) "X" 7
    ⟨"op_X", "p1", "Pack", 100,
      List.replicate 5 ⟨"i1", "I", "common", "", "stem", true⟩, 800, 0, 5⟩
    rfl (by decide) ⟨"i1", "I", "common", "", "stem", true⟩ (by decide)

/-! ## Claim C8: completion reporting -/

lemma countP_length_decide_all {α : Type} (p : α → Bool) (l : List α) :
    decide (l.countP p = l.length) = l.all p := by
  by_cases h : ∀ a ∈ l, p a = true
  · rw [decide_eq_true (List.countP_eq_length.mpr h), (List.all_eq_true).mpr h]
  · have h1 : l.countP p ≠ l.length := fun hc => h (List.countP_eq_length.mp hc)
    have h2 : l.all p = false := by
      rw [Bool.eq_false_iff]
      intro hall
      exact h (List.all_eq_true.mp hall)
    rw [decide_eq_false h1, h2]

lemma filter_length_decide_all {α : Type} (p : α → Bool) (l : List α) :
    decide ((l.filter p).length = l.length) = l.all p := by
  rw [← List.countP_eq_length_filter]
  exact countP_length_decide_all p l

lemma lengthPos_decide {α : Type} (l : List α) : decide (0 < l.length) = !l.isEmpty := by
  cases l <;> simp

/-- The per-song `complete` flag the code computes agrees with the spec
wording. -/
lemma songRepOf_complete (owned : List String) (epId : String) (song : SongC) :
    (songRepOf owned epId song).complete = songCompleteSpec owned song := by
  unfold songRepOf songCompleteSpec
  dsimp only
  rw [lengthPos_decide, filter_length_decide_all]

/-- The per-EP `complete` flag the code computes requires at least one
song, all songs complete, and the cover owned. -/
lemma epRepOf_complete (owned : List String) (ep : EpC) :
    (epRepOf owned ep).complete = releaseCompleteSpecAmended owned ep := by
  unfold epRepOf releaseCompleteSpecAmended
  dsimp only
  rw [lengthPos_decide]
  have hc : ((ep.songs.map (songRepOf owned ep.id)).countP (·.complete)) =
      ep.songs.countP (songCompleteSpec owned) := by
    rw [List.countP_map]
    exact List.countP_congr fun s _ => by
      simp only [Function.comp_apply, songRepOf_complete]
  rw [hc]
  have : decide (ep.songs.countP (songCompleteSpec owned) = ep.songs.length) =
      ep.songs.all (songCompleteSpec owned) := countP_length_decide_all _ _
  rw [this]

/-- C8 counterexample: a Release with zero songs whose cover is owned.
Every song of the release is (vacuously) complete and the cover is owned,
yet `computeProgress` reports the release as not complete (the code also
requires `songList.length > 0`), so the claim's iff fails at this input. -/
theorem c8_counterexample_zero_song_release :
    (computeProgress ["c0"] ⟨[⟨"e0", "E0", [], some ⟨"c0"⟩, none⟩], [], []⟩).eps.map
        (·.complete) = [false] ∧
    ([] : List SongC).all (songCompleteSpec ["c0"]) = true ∧
    coverOwnedOf ["c0"] (some ⟨"c0"⟩) = true := by
  refine ⟨by decide, by decide, by decide⟩

/-- C8 (amended for releases: "at least one song" added): over any owned
set and catalog, (1) `computeProgress` reports a Song complete iff it has
at least one stem and all of its stems are owned; (2) it reports a Release
complete iff the release has at least one song, every one of its songs is
complete, and its cover is owned; (3) on the concrete release with 2 songs
of 3 stems each plus a cover, owning 5 of the 6 stems (one song fully
owned) and the cover yields `songsComplete = 1` and `complete = false`. -/
theorem c8_progress_completion_amended :
    (∀ (owned : List String) (c : Canon),
        (computeProgress owned c).songs.map (·.complete) =
          c.eps.flatMap fun ep => ep.songs.map (songCompleteSpec owned)) ∧
    (∀ (owned : List String) (c : Canon),
        (computeProgress owned c).eps.map (·.complete) =
          c.eps.map (releaseCompleteSpecAmended owned)) ∧
    ((computeProgress ["a", "b", "c", "d", "e", "cov"]
        ⟨[⟨"e1", "EP1",
            [⟨"s1", "S1", [⟨"a", "A"⟩, ⟨"b", "B"⟩, ⟨"c", "C"⟩]⟩,
             ⟨"s2", "S2", [⟨"d", "D"⟩, ⟨"e", "E"⟩, ⟨"f", "F"⟩]⟩],
            some ⟨"cov"⟩, none⟩], [], []⟩).eps =
      [⟨"e1", "EP1", 1, 2, true, false⟩]) := by
  refine ⟨?_, ?_, by decide⟩
  · intro owned c
    unfold computeProgress
    dsimp only
    induction c.eps with
    | nil => rfl
    | cons ep rest ih =>
      simp only [List.flatMap_cons, List.map_append, ih, List.map_map]
      congr 1
      induction ep.songs with
      | nil => rfl
      | cons sg sgs ih2 =>
        simp only [List.map_cons, Function.comp_apply, songRepOf_complete, ih2]
  · intro owned c
    unfold computeProgress
    dsimp only
    induction c.eps with
    | nil => rfl
    | cons ep rest ih =>
      simp only [List.map_cons, ih, epRepOf_complete]

/-! ## Claim C9: idempotence of materializeUnlocks -/

lemma contains_iff {l : List String} {a : String} : l.contains a = true ↔ a ∈ l := by
  show l.elem a = true ↔ a ∈ l
  exact List.elem_iff

lemma mem_upsertKeys {a : String} : ∀ (ks t : List String),
    a ∈ upsertKeys t ks ↔ a ∈ t ∨ a ∈ ks := by
  intro ks
  induction ks with
  | nil => intro t; simp [upsertKeys]
  | cons k ks ih =>
    intro t
    unfold upsertKeys
    by_cases hc : t.contains k = true
    · rw [if_pos hc, ih]
      have hk : k ∈ t := contains_iff.mp hc
      simp only [List.mem_cons]
      constructor
      · rintro (h | h)
        · exact Or.inl h
        · exact Or.inr (Or.inr h)
      · rintro (h | h | h)
        · exact Or.inl h
        · exact Or.inl (h ▸ hk)
        · exact Or.inr h
    · rw [if_neg hc, ih]
      simp only [List.mem_append, List.mem_singleton, List.mem_cons]
      tauto

lemma upsertKeys_nodup : ∀ (ks t : List String), t.Nodup → (upsertKeys t ks).Nodup := by
  intro ks
  induction ks with
  | nil => intro t h; exact h
  | cons k ks ih =>
    intro t h
    unfold upsertKeys
    by_cases hc : t.contains k = true
    · rw [if_pos hc]; exact ih t h
    · rw [if_neg hc]
      refine ih (t ++ [k]) (List.Nodup.append h (List.nodup_singleton k) ?_)
      intro a hat hak
      rw [List.mem_singleton] at hak
      subst hak
      exact hc (contains_iff.mpr hat)

/-- The have-set check of a candidate branch factors out: it guards only
the final emit, so a candidate survives the check iff it is a candidate
against the empty set and its character is not already unlocked. -/
lemma ifNotContains_iff (h : List String) (idv : String) (v pr : String × String)
    (hfst : v.1 = idv) :
    ((if !(h.contains idv) then some v else none) = some pr ↔
      ((if !(([] : List String).contains idv) then some v else none) = some pr ∧
        h.contains pr.1 = false)) := by
  have hnil : (([] : List String).contains idv) = false := rfl
  rw [hnil]
  by_cases hh : h.contains idv = true
  · rw [hh]
    simp only [Bool.not_true, Bool.not_false, if_false, if_true]
    constructor
    · intro hcontra; exact absurd hcontra (by simp)
    · rintro ⟨h1, h2⟩
      obtain rfl := Option.some.inj h1
      rw [hfst, hh] at h2
      exact Bool.noConfusion h2
  · have hh' : h.contains idv = false := by
      cases hcc : h.contains idv
      · rfl
      · exact absurd hcc hh
    rw [hh']
    simp only [Bool.not_false, if_true]
    constructor
    · intro h1
      refine ⟨h1, ?_⟩
      obtain rfl := Option.some.inj h1
      rw [hfst]
      exact hh'
    · exact fun h1 => h1.1

lemma epCand_iff {h : List String} {c : Canon} {e : EpRep} {pr : String × String} :
    epCand h c e = some pr ↔ epCand [] c e = some pr ∧ h.contains pr.1 = false := by
  unfold epCand
  cases hcomp : e.complete with
  | false => simp
  | true =>
    simp only [if_true]
    cases hfind : c.eps.find? fun ep => ep.id == e.id with
    | none => simp
    | some epDef =>
      cases hch : epDef.character with
      | none => simp [hch]
      | some ch => simp only [hch]; exact ifNotContains_iff h ch.id (ch.id, "EP:" ++ e.id) pr rfl

lemma singleCand_iff {h : List String} {c : Canon} {sr : SingleRep} {pr : String × String} :
    singleCand h c sr = some pr ↔ singleCand [] c sr = some pr ∧ h.contains pr.1 = false := by
  unfold singleCand
  cases hcomp : sr.complete with
  | false => simp
  | true =>
    simp only [if_true]
    cases hfind : c.singles.find? fun x => x.id == sr.id with
    | none => simp
    | some sDef =>
      cases hch : sDef.character with
      | none => simp [hch]
      | some ch => simp only [hch]; exact ifNotContains_iff h ch.id (ch.id, "SINGLE:" ++ sr.id) pr rfl

lemma fragCand_iff {h : List String} {f : FragRep} {pr : String × String} :
    fragCand h f = some pr ↔ fragCand [] f = some pr ∧ h.contains pr.1 = false := by
  unfold fragCand
  cases hcomp : f.complete with
  | false => simp
  | true =>
    simp only [Bool.true_and]
    exact ifNotContains_iff h f.characterId (f.characterId, "FRAGMENTS:" ++ f.characterId) pr rfl

lemma materializeUnlocks_of_empty {h owned : List String} {c : Canon}
    (he : newlyUnlocks h owned c = []) : materializeUnlocks h owned c = (h, 0) := by
  unfold materializeUnlocks
  rw [he]
  rfl

/-- Membership in the `newly` batch factors into the have-independent
completion conditions and absence from the owner's unlock set. -/
lemma mem_newlyUnlocks {h owned : List String} {c : Canon} {pr : String × String} :
    pr ∈ newlyUnlocks h owned c ↔
      pr ∈ newlyUnlocks [] owned c ∧ h.contains pr.1 = false := by
  unfold newlyUnlocks epNewly singleNewly fragNewly
  simp only [List.mem_append, List.mem_filterMap]
  constructor
  · rintro ((⟨e, he, hf⟩ | ⟨sr, hs, hf⟩) | ⟨f, hfr, hf⟩)
    · obtain ⟨hf0, hcont⟩ := epCand_iff.mp hf
      exact ⟨Or.inl (Or.inl ⟨e, he, hf0⟩), hcont⟩
    · obtain ⟨hf0, hcont⟩ := singleCand_iff.mp hf
      exact ⟨Or.inl (Or.inr ⟨sr, hs, hf0⟩), hcont⟩
    · obtain ⟨hf0, hcont⟩ := fragCand_iff.mp hf
      exact ⟨Or.inr ⟨f, hfr, hf0⟩, hcont⟩
  · rintro ⟨(⟨e, he, hf0⟩ | ⟨sr, hs, hf0⟩) | ⟨f, hfr, hf0⟩, hcont⟩
    · exact Or.inl (Or.inl ⟨e, he, epCand_iff.mpr ⟨hf0, hcont⟩⟩)
    · exact Or.inl (Or.inr ⟨sr, hs, singleCand_iff.mpr ⟨hf0, hcont⟩⟩)
    · exact Or.inr ⟨f, hfr, fragCand_iff.mpr ⟨hf0, hcont⟩⟩

/-- C9: `materializeUnlocks` is idempotent — running it again with no
inventory change returns the same unlock set and reports 0 inserts — and
every insert is an upsert keyed by character id, so a duplicate-free
unlock table stays duplicate-free. -/
theorem c9_materialize_unlocks_idempotent :
    ∀ (haveIds owned : List String) (c : Canon),
      materializeUnlocks (materializeUnlocks haveIds owned c).1 owned c =
        ((materializeUnlocks haveIds owned c).1, 0) ∧
      (haveIds.Nodup → (materializeUnlocks haveIds owned c).1.Nodup) := by
  intro haveIds owned c
  constructor
  · have hempty : newlyUnlocks (materializeUnlocks haveIds owned c).1 owned c = [] := by
      rw [List.eq_nil_iff_forall_not_mem]
      intro pr hmem
      obtain ⟨hbase, hcont⟩ := mem_newlyUnlocks.mp hmem
      have hnotin : pr.1 ∉ (materializeUnlocks haveIds owned c).1 := by
        intro hin
        rw [contains_iff.mpr hin] at hcont
        exact absurd hcont (by decide)
      unfold materializeUnlocks at hnotin
      by_cases hemp : (newlyUnlocks haveIds owned c).isEmpty = true
      · rw [if_pos hemp] at hnotin
        have hmem1 : pr ∈ newlyUnlocks haveIds owned c := by
          refine mem_newlyUnlocks.mpr ⟨hbase, ?_⟩
          cases hcc : haveIds.contains pr.1 with
          | false => rfl
          | true => exact absurd (contains_iff.mp hcc) hnotin
        rw [List.isEmpty_iff] at hemp
        rw [hemp] at hmem1
        exact absurd hmem1 (by simp)
      · rw [if_neg hemp] at hnotin
        rw [mem_upsertKeys] at hnotin
        push_neg at hnotin
        obtain ⟨hnh, hnk⟩ := hnotin
        have hmem1 : pr ∈ newlyUnlocks haveIds owned c := by
          refine mem_newlyUnlocks.mpr ⟨hbase, ?_⟩
          cases hcc : haveIds.contains pr.1 with
          | false => rfl
          | true => exact absurd (contains_iff.mp hcc) hnh
        exact hnk (List.mem_map.mpr ⟨pr, hmem1, rfl⟩)
    exact materializeUnlocks_of_empty hempty
  · intro hnd
    unfold materializeUnlocks
    by_cases hemp : (newlyUnlocks haveIds owned c).isEmpty = true
    · rw [if_pos hemp]; exact hnd
    · rw [if_neg hemp]
      exact upsertKeys_nodup _ _ hnd

/-- Witness for `c9_materialize_unlocks_idempotent`: one fragment
character completed by owning its single fragment; the first run inserts
`ch1`, the second run inserts nothing, and the resulting unlock set is
duplicate-free. -/
theorem c9_materialize_unlocks_idempotent_witness :
    materializeUnlocks ["ch1"] ["f1"] ⟨[], [], [⟨"ch1", "CH", [⟨"f1", "F"⟩]⟩]⟩ =
      (["ch1"], 0) ∧
    materializeUnlocks [] ["f1"] ⟨[], [], [⟨"ch1", "CH", [⟨"f1", "F"⟩]⟩]⟩ =
      (["ch1"], 1) ∧
    (["ch1"] : List String).Nodup := by
  have h := c9_materialize_unlocks_idempotent [] ["f1"] ⟨[], [], [⟨"ch1", "CH", [⟨"f1", "F"⟩]⟩]⟩
  have h1 : materializeUnlocks [] ["f1"] ⟨[], [], [⟨"ch1", "CH", [⟨"f1", "F"⟩]⟩]⟩ =
      (["ch1"], 1) := by decide
  refine ⟨?_, h1, by decide⟩
  have h2 := h.1
  rw [h1] at h2
  exact h2

/-! ## Claim C2: commit of a pending opening -/

lemma lookupLast_spec {rs : List ResultEntry} {a : String}
    (hc : (rs.map (·.itemId)).contains a = true) :
    ∃ e, lookupLast rs a = some e ∧ e.itemId = a := by
  have hmem : a ∈ rs.map (·.itemId) := contains_iff.mp hc
  obtain ⟨e, he, heq⟩ := List.mem_map.mp hmem
  have hef : e ∈ rs.filter fun it => it.itemId == a :=
    List.mem_filter.mpr ⟨he, beq_iff_eq.mpr heq⟩
  have hne : rs.filter (fun it => it.itemId == a) ≠ [] := by
    intro hnil
    rw [hnil] at hef
    exact absurd hef (by simp)
  have hsome : ((rs.filter fun it => it.itemId == a).getLast?).isSome :=
    List.getLast?_isSome.mpr hne
  obtain ⟨e', he'⟩ := Option.isSome_iff_exists.mp hsome
  refine ⟨e', he', ?_⟩
  have hmem' : e' ∈ rs.filter fun it => it.itemId == a :=
    List.mem_of_getLast?_eq_some he'
  exact beq_iff_eq.mp (List.mem_filter.mp hmem').2

lemma filterMap_lookupLast_ids {rs : List ResultEntry} : ∀ {ids : List String},
    (∀ a ∈ ids, (rs.map (·.itemId)).contains a = true) →
    (ids.filterMap (lookupLast rs)).map (·.itemId) = ids := by
  intro ids
  induction ids with
  | nil => intro _; rfl
  | cons a as ih =>
    intro hall
    obtain ⟨e, he, heq⟩ := lookupLast_spec (hall a (List.mem_cons_self a as))
    rw [List.filterMap_cons_some he, List.map_cons, heq,
      ih fun b hb => hall b (List.mem_cons_of_mem _ hb)]

lemma dbQty_append (a b : List DbRow) (id : String) :
    dbQty (a ++ b) id = dbQty a id + dbQty b id := by
  unfold dbQty
  rw [List.filter_append, List.map_append, List.sum_append]

lemma dbQty_cons (r : DbRow) (rs : List DbRow) (id : String) :
    dbQty (r :: rs) id = (if (r.itemId == id) = true then r.qty else 0) + dbQty rs id := by
  unfold dbQty
  rw [List.filter_cons]
  by_cases hr : (r.itemId == id) = true
  · rw [if_pos hr, if_pos hr, List.map_cons, List.sum_cons]
  · rw [if_neg hr, if_neg hr, zero_add]

lemma map_bump_id {tid : String} : ∀ {rows : List DbRow},
    (∀ r ∈ rows, (r.itemId == tid) = false) →
    rows.map (fun r => if r.itemId == tid then { r with qty := r.qty + 1 } else r) = rows := by
  intro rows
  induction rows with
  | nil => intro _; rfl
  | cons r rs ih =>
    intro hall
    rw [List.map_cons, if_neg (by
      rw [hall r (List.mem_cons_self r rs)]; exact fun hct => Bool.noConfusion hct),
      ih fun b hb => hall b (List.mem_cons_of_mem _ hb)]

lemma dbQty_bump {tid : String} : ∀ {rows : List DbRow},
    (rows.map (·.itemId)).Nodup →
    rows.any (fun r => r.itemId == tid) = true →
    ∀ id, dbQty (rows.map fun r => if r.itemId == tid then { r with qty := r.qty + 1 } else r) id =
      dbQty rows id + (if (tid == id) = true then 1 else 0) := by
  intro rows
  induction rows with
  | nil => intro _ hmem; exact absurd hmem (by simp)
  | cons r rs ih =>
    intro hnd hmem id
    have hnd' : (rs.map (·.itemId)).Nodup := (List.nodup_cons.mp hnd).2
    have hrnotin : r.itemId ∉ rs.map (·.itemId) := (List.nodup_cons.mp hnd).1
    rw [List.map_cons]
    by_cases hr : (r.itemId == tid) = true
    · have hrid : r.itemId = tid := beq_iff_eq.mp hr
      have hnone : ∀ x ∈ rs, (x.itemId == tid) = false := by
        intro x hx
        cases hxt : (x.itemId == tid) with
        | false => rfl
        | true =>
          exfalso
          have : x.itemId = tid := beq_iff_eq.mp hxt
          exact hrnotin (List.mem_map.mpr ⟨x, hx, by rw [this, hrid]⟩)
      rw [if_pos hr, map_bump_id hnone, dbQty_cons, dbQty_cons]
      by_cases hid : (tid == id) = true
      · have h1 : (r.itemId == id) = true := by
          rw [hrid]; exact hid
        simp only [h1, if_pos, hid, if_true]
        omega
      · have h1 : (r.itemId == id) = false := by
          rw [hrid]
          cases hti : (tid == id) with
          | false => rfl
          | true => exact absurd hti hid
        rw [h1]
        simp only [Bool.false_eq_true, if_false, hid]
        omega
    · have hrf : (r.itemId == tid) = false := by
        cases hb : (r.itemId == tid) with
        | false => rfl
        | true => exact absurd hb hr
      have hmem' : rs.any (fun x => x.itemId == tid) = true := by
        rw [List.any_cons, hrf, Bool.false_or] at hmem
        exact hmem
      rw [if_neg hr, dbQty_cons, dbQty_cons, ih hnd' hmem' id]
      omega

/-- Quantity accounting of the inventory RPC: over a duplicate-free row
set, each processed entry adds exactly one unit of quantity for its item
id (insert with `qty = 1` or increment), and uniqueness of rows is
preserved. -/
lemma addItemsQty_qty : ∀ (its : List ResultEntry) (rows : List DbRow),
    (rows.map (·.itemId)).Nodup →
    (∀ id, dbQty (addItemsQty rows its).1 id =
      dbQty rows id + (its.filter fun e => e.itemId == id).length) ∧
    ((addItemsQty rows its).1.map (·.itemId)).Nodup := by
  intro its
  induction its with
  | nil =>
    intro rows hnd
    exact ⟨fun id => by simp [addItemsQty], hnd⟩
  | cons it rest ih =>
    intro rows hnd
    unfold addItemsQty
    by_cases hmem : rows.any (fun r => r.itemId == it.itemId) = true
    · rw [if_pos hmem]
      dsimp only
      have hbumpids : ((rows.map fun r =>
          if r.itemId == it.itemId then { r with qty := r.qty + 1 } else r).map
            (·.itemId)) = rows.map (·.itemId) := by
        rw [List.map_map]
        refine List.map_congr_left ?_
        intro r _
        by_cases hb : (r.itemId == it.itemId) = true
        · rw [Function.comp_apply, if_pos hb]
        · rw [Function.comp_apply, if_neg hb]
      have hnd' : ((rows.map fun r =>
          if r.itemId == it.itemId then { r with qty := r.qty + 1 } else r).map
            (·.itemId)).Nodup := by
        rw [hbumpids]; exact hnd
      obtain ⟨hq, hnodup⟩ := ih _ hnd'
      constructor
      · intro id
        rw [hq id, dbQty_bump hnd hmem id, List.filter_cons]
        by_cases hb : (it.itemId == id) = true
        · simp only [if_pos hb, List.length_cons]
          omega
        · have hbf : (it.itemId == id) = false := by
            cases hc : (it.itemId == id) with
            | false => rfl
            | true => exact absurd hc hb
          simp only [hbf, Bool.false_eq_true, if_false]
          omega
      · exact hnodup
    · rw [if_neg hmem]
      have hnotin : it.itemId ∉ rows.map (·.itemId) := by
        intro hin
        obtain ⟨r, hr, hre⟩ := List.mem_map.mp hin
        have hbr : (r.itemId == it.itemId) = true := beq_iff_eq.mpr hre
        refine hmem (List.any_eq_true.mpr ?_)
        exact ⟨r, hr, hbr⟩
      have hnd' : (((rows ++ [(⟨it.itemId, it.name, it.rarity, it.artUrl, 1⟩ : DbRow)]).map
          (·.itemId))).Nodup := by
        rw [List.map_append]
        refine List.Nodup.append hnd (by simp) ?_
        intro a ha hb
        simp only [List.map_cons, List.map_nil, List.mem_singleton] at hb
        subst hb
        exact hnotin ha
      obtain ⟨hq, hnodup⟩ := ih _ hnd'
      constructor
      · intro id
        rw [hq id, dbQty_append, List.filter_cons]
        have hsing : dbQty [(⟨it.itemId, it.name, it.rarity, it.artUrl, 1⟩ : DbRow)] id =
            if (it.itemId == id) = true then 1 else 0 := by
          by_cases hb : (it.itemId == id) = true
          · simp [dbQty, hb]
          · simp [dbQty, hb]
        rw [hsing]
        by_cases hb : (it.itemId == id) = true
        · simp only [if_pos hb, List.length_cons]
          omega
        · rw [if_neg hb, if_neg hb]
          omega
      · exact hnodup

/-- C2: the commit handler: (1) with no pending opening it fails with the
no-pending error and does not touch the state; (2) with a live non-empty
pending whose staged ids have empty intersection with the request it fails
with the no-matching error and does not touch the state; (3) on success the
pending opening is cleared unconditionally — even when the accepted set is
a strict subset of the staged ids — and the accepted set is the
order-preserving intersection `itemIds ∩ stagedIds` with request repeats
kept: an anonymous owner's file gains exactly one entry per accepted
instance (in request order, ids preserved), and a durable owner's row set
gains exactly one unit of quantity per accepted instance of each id. -/
theorem c2_commit_collection :
    (∀ (c : Canon) (s : Srv) (uuid : Bool) (owner : String) (itemIds : List String),
        itemIds ≠ [] → pendingOf s uuid owner = none →
        collectionAdd c s uuid owner itemIds =
          (.err 400 "No pending items to collect.", s)) ∧
    (∀ (c : Canon) (s : Srv) (uuid : Bool) (owner : String) (itemIds : List String)
        (p : Pending),
        itemIds ≠ [] → pendingOf s uuid owner = some p → p.results ≠ [] →
        itemIds.filter (fun id => (p.results.map fun it => it.itemId).contains id) = [] →
        collectionAdd c s uuid owner itemIds =
          (.err 400 "No matching pending items.", s)) ∧
    (∀ (c : Canon) (s : Srv) (uuid : Bool) (owner : String) (itemIds : List String)
        (v : InvView) (s' : Srv) (p : Pending),
        collectionAdd c s uuid owner itemIds = (.ok v, s') →
        pendingOf s uuid owner = some p →
        pendingOf s' uuid owner = none ∧
        (uuid = false →
          s'.anonItems owner = s.anonItems owner ++
            (itemIds.filter fun id => (p.results.map fun it => it.itemId).contains id).filterMap
              (lookupLast p.results) ∧
          ((itemIds.filter fun id => (p.results.map fun it => it.itemId).contains id).filterMap
              (lookupLast p.results)).map (·.itemId) =
            itemIds.filter fun id => (p.results.map fun it => it.itemId).contains id) ∧
        (uuid = true → ((s.dbItems owner).map (·.itemId)).Nodup →
          ∀ id, dbQty (s'.dbItems owner) id =
            dbQty (s.dbItems owner) id +
              ((itemIds.filter fun id2 => (p.results.map fun it => it.itemId).contains id2).filter
                fun id2 => id2 == id).length)) := by
  refine ⟨?_, ?_, ?_⟩
  · intro c s uuid owner itemIds hne hp
    unfold collectionAdd
    rw [if_neg hne]
    unfold pendingOf at hp
    dsimp only
    rw [hp]
  · intro c s uuid owner itemIds p hne hp hres hacc
    unfold collectionAdd
    rw [if_neg hne]
    unfold pendingOf at hp
    dsimp only
    rw [hp]
    dsimp only
    rw [if_neg hres, if_pos hacc]
  · intro c s uuid owner itemIds v s' p h hp
    unfold collectionAdd at h
    by_cases hne : itemIds = []
    · rw [if_pos hne] at h
      injection h with h1 _
      exact absurd h1 (by simp)
    · rw [if_neg hne] at h
      unfold pendingOf at hp
      dsimp only at h
      rw [hp] at h
      dsimp only at h
      by_cases hres : p.results = []
      · rw [if_pos hres] at h
        injection h with h1 _
        exact absurd h1 (by simp)
      · rw [if_neg hres] at h
        by_cases hacc :
            itemIds.filter (fun id => (p.results.map fun it => it.itemId).contains id) = []
        · rw [if_pos hacc] at h
          injection h with h1 _
          exact absurd h1 (by simp)
        · rw [if_neg hacc] at h
          have hall : ∀ a ∈ itemIds.filter
              (fun id => (p.results.map fun it => it.itemId).contains id),
              ((p.results.map (·.itemId)).contains a) = true := by
            intro a ha
            exact List.of_mem_filter ha
          have hids := filterMap_lookupLast_ids hall
          cases uuid with
          | true =>
            rw [if_pos rfl] at h
            injection h with h1 h2
            subst h2
            refine ⟨by simp [pendingOf, upd], fun hf => absurd hf (by decide), ?_⟩
            intro _ hnd id
            have hq := (addItemsQty_qty
              ((itemIds.filter fun id2 =>
                (p.results.map fun it => it.itemId).contains id2).filterMap
                  (lookupLast p.results)) (s.dbItems owner) hnd).1 id
            dsimp only
            rw [upd_same, hq]
            have hlen : ((itemIds.filter fun id2 =>
                (p.results.map fun it => it.itemId).contains id2).filter
                  fun id2 => id2 == id).length =
                (((itemIds.filter fun id2 =>
                  (p.results.map fun it => it.itemId).contains id2).filterMap
                    (lookupLast p.results)).filter fun e => e.itemId == id).length := by
              conv_lhs => rw [← hids]
              rw [List.filter_map, List.length_map]
              rfl
            rw [hlen]
          | false =>
            rw [if_neg (by decide)] at h
            injection h with h1 h2
            subst h2
            refine ⟨by simp [pendingOf, upd], ?_, fun hf => absurd hf (by decide)⟩
            intro _
            refine ⟨?_, hids⟩
            dsimp only
            rw [upd_same]

/-- Witness for `c2_commit_collection`: an anonymous owner with a staged
single-item pending commits `["x", "x", "zz"]`; `"zz"` is dropped, the two
requested `"x"` instances each add one entry, and the pending is cleared. -/
theorem c2_commit_collection_witness :
    pendingOf ((collectionAdd ⟨[], [], []⟩
        { baseSrv with pendingOpens := fun _ => some oldPending }
        false "alice" ["x", "x", "zz"]).2) false "alice" = none ∧
    ((collectionAdd ⟨[], [], []⟩ { baseSrv with pendingOpens := fun _ => some oldPending }
        false "alice" ["x", "x", "zz"]).2).anonItems "alice" =
      [⟨"x", "X", "common", "", "stem", false⟩, ⟨"x", "X", "common", "", "stem", false⟩] := by
  have h := c2_commit_collection.2.2 ⟨[], [], []⟩
    { baseSrv with pendingOpens := fun _ => some oldPending } false "alice" ["x", "x", "zz"]
    (.anonV 1000 [⟨"x", "X", "common", "", "stem", false⟩, ⟨"x", "X", "common", "", "stem", false⟩])
    ((collectionAdd ⟨[], [], []⟩ { baseSrv with pendingOpens := fun _ => some oldPending }
      false "alice" ["x", "x", "zz"]).2) oldPending rfl rfl
  obtain ⟨hpend, hanon, -⟩ := h
  exact ⟨hpend, ((hanon rfl).1).trans (by decide)⟩

end PackBackend
